import Mathlib

/-!
Verification of the UNRAVEL stream module (`src/unravel/stream.py`).

The source operates on a tractogram: an ordered list of curves
("streamlines"), each an ordered sequence of 3D points.  The flattened
concatenation of all points is `streams_data`; `streams._offsets` holds, for
every curve, the flat index of its first point.  Coordinates are embedded as
rationals (the source computes in floating point; every property verified
here is an order/equality property preserved by exact arithmetic).
-/

namespace Unravel

/-- A 3D point or vector, componentwise rational. -/
structure Vec3 where
  x : ℚ
  y : ℚ
  z : ℚ
deriving DecidableEq, Repr

def vzero : Vec3 := ⟨0, 0, 0⟩

def Vec3.add (a b : Vec3) : Vec3 := ⟨a.x + b.x, a.y + b.y, a.z + b.z⟩

def Vec3.sub (a b : Vec3) : Vec3 := ⟨a.x - b.x, a.y - b.y, a.z - b.z⟩

def Vec3.smul (c : ℚ) (a : Vec3) : Vec3 := ⟨c * a.x, c * a.y, c * a.z⟩

/-- Dot product, `np.sum(a*b, axis=1)` applied to one row. -/
def Vec3.dot (a b : Vec3) : ℚ := a.x * b.x + a.y * b.y + a.z * b.z

/-- Componentwise mean of a list of points, `np.mean(points, axis=0)`.
(Only ever used on nonempty lists; `np.mean` of an empty array is NaN.) -/
def vmean (l : List Vec3) : Vec3 :=
  ⟨(l.map Vec3.x).sum / l.length, (l.map Vec3.y).sum / l.length,
   (l.map Vec3.z).sum / l.length⟩

/-- `np.median` of a 1D array: middle element (odd length) or mean of the
two middle elements (even length) of the sorted data.  The empty case is
NaN in numpy; it is unreachable in every execution modelled here and the
value `0` below is never relied upon. -/
def medianQ (l : List ℚ) : ℚ :=
  let s := l.insertionSort (· ≤ ·)
  if s.length % 2 = 1 then s.getD (s.length / 2) 0
  else (s.getD (s.length / 2 - 1) 0 + s.getD (s.length / 2) 0) / 2

/-- `np.median(idx_pos, axis=0)`: componentwise median. -/
def vmedian (l : List Vec3) : Vec3 :=
  ⟨medianQ (l.map Vec3.x), medianQ (l.map Vec3.y), medianQ (l.map Vec3.z)⟩

/-! ## Crossing detection (shared by `extract_nodes`,
`get_dist_from_median_trajectory` and `remove_outlier_streamlines`)

`sign = np.where(np.sum(ns*normal, axis=1) > 0, 1, 0)` classifies every
flattened point by the side of the plane `(midpoint, normal)` it lies on;
`idx = np.argwhere(abs(np.roll(sign, 1) - sign) == 1)` reports every flat
index whose sign differs from the sign of the previous flat index
(`np.roll` wraps, so index 0 is compared against the last index); finally
`idx = np.array(list(filter(lambda x: x not in streams._offsets, idx)))`
drops every index that is the first point of a curve. -/

/-- Side flag of one point: `np.sum((p - midpoint)*normal) > 0`. -/
def crossFlag (mp nrm p : Vec3) : Bool := 0 < Vec3.dot (Vec3.sub p mp) nrm

/-- `np.roll(sign, 1)` read at position `k`. -/
def rollPrev (s : List Bool) (k : ℕ) : Bool :=
  s.getD ((k + s.length - 1) % s.length) false

/-- Flat indices where the side flag differs from the previous (rolled)
flag: `np.argwhere(abs(np.roll(sign, 1) - sign) == 1)`. -/
def rawCross (data : List Vec3) (mp nrm : Vec3) : List ℕ :=
  let s := data.map (crossFlag mp nrm)
  (List.range data.length).filter (fun k => rollPrev s k ≠ s.getD k false)

/-- Detected crossings after dropping curve-boundary indices:
`filter(lambda x: x not in streams._offsets, idx)`. -/
def crossIdx (data : List Vec3) (offsets : List ℕ) (mp nrm : Vec3) : List ℕ :=
  (rawCross data mp nrm).filter (fun k => k ∉ offsets)

/-- `get_streamline_number_from_index` (scalar-index branch):
`offsets = np.append(streams._offsets, len(streams._data))`,
`isin = np.where(offsets - index > 0, 1, 0)`, and the result is the first
`k` with `np.roll(isin, -1)[k] - isin[k] == 1`. -/
def streamlineNumber (offsets : List ℕ) (total index : ℕ) : ℕ :=
  let oe := offsets ++ [total]
  let isin : List ℤ := oe.map (fun o => if index < o then 1 else 0)
  (List.range oe.length).findIdx
    (fun k => decide (isin.getD ((k + 1) % oe.length) 0 - isin.getD k 0 = 1))

/-! ## `extract_nodes`: the Skeleton Builder

`extract_nodes(trk_file, level, smooth)` loads the tractogram (external
I/O, out of scope), resolves `m_start`/`m_end` through k-means clustering
and length filtering (the clustering oracle is external; the orientation
tie-break on the resolved means is embedded below as `orientResolve`), and
then fills a `(2**level + 1)`-row point array by recursive bisection.  The
loop body (lines 92-137 of `stream.py`) is embedded by `extractStep`. -/

/-- `np.where(np.sum((p - origin)*nrm) > 0, 1, -1)`: ±1 side of the plane
through `origin` with normal `nrm`. -/
def planeSide (origin nrm p : Vec3) : ℤ :=
  if 0 < Vec3.dot (Vec3.sub p origin) nrm then 1 else -1

/-- `midpoint = (m_start + m_end)/2`. -/
def windowMid (ms me : Vec3) : Vec3 := Vec3.smul (1/2) (Vec3.add ms me)

/-- The start/end-plane consistency filter of `extract_nodes`
(lines 103-122): point `p` is kept when its ±1 side of the plane at
`m_start` (normal `normal_previous`) equals the midpoint's side of that
plane, and likewise for the plane at `m_end` (normal `normal_next`);
`idx_filter` collects the indices failing this and they are removed from
`idx`. -/
def windowFilterOk (data : List Vec3) (ms me nprev nnext : Vec3) (p : ℕ) : Bool :=
  let midpoint := windowMid ms me
  planeSide ms nprev (data.getD p vzero) = planeSide ms nprev midpoint ∧
  planeSide me nnext (data.getD p vzero) = planeSide me nnext midpoint

/-- Crossing indices of one bisection window (lines 124-130): crossings of
the midplane `(midpoint, m_start - m_end)`, minus curve-boundary indices,
minus indices failing the consistency filter. -/
def windowCross (data : List Vec3) (offsets : List ℕ) (ms me nprev nnext : Vec3) :
    List ℕ :=
  (crossIdx data offsets (windowMid ms me) (Vec3.sub ms me)).filter
    (fun p => windowFilterOk data ms me nprev nnext p)

/-- New node of one window (lines 132-137): the mean of the surviving
crossing points; when no index survives, `streams_data[idx, :]` with the
empty (float-dtype) index array raises `IndexError`, caught by the source's
`except IndexError`, and the node falls back to the geometric midpoint. -/
def windowNode (data : List Vec3) (offsets : List ℕ) (ms me nprev nnext : Vec3) :
    Vec3 :=
  let idx := windowCross data offsets ms me nprev nnext
  if idx.isEmpty then windowMid ms me
  else vmean (idx.map (fun p => data.getD p vzero))

/-- The nested loop indices `for j in range(level): for i in range(2**j)`,
linearised in execution order. -/
def levelPairs (level : ℕ) : List (ℕ × ℕ) :=
  (List.range level).flatMap (fun j => (List.range (2^j)).map (fun i => (j, i)))

/-- One iteration of the bisection loop: reads the bracketing nodes at
strides `2**(level-j-1)*2*i` and `2**(level-j-1)*(2*i+2)`, writes the new
normal and the new node at `2**(level-j-1)*(2*i+1)`. -/
def extractStep (data : List Vec3) (offsets : List ℕ) (level : ℕ)
    (st : List Vec3 × List Vec3) (ji : ℕ × ℕ) : List Vec3 × List Vec3 :=
  let stride := 2 ^ (level - ji.1 - 1)
  let ms := st.1.getD (stride * (2 * ji.2)) vzero
  let me := st.1.getD (stride * (2 * ji.2 + 2)) vzero
  let na := st.2.set (stride * (2 * ji.2 + 1)) (Vec3.sub ms me)
  let nprev := na.getD (stride * (2 * ji.2)) vzero
  let nnext := na.getD (stride * (2 * ji.2 + 2)) vzero
  (st.1.set (stride * (2 * ji.2 + 1)) (windowNode data offsets ms me nprev nnext), na)

/-- Lines 85-137: `point_array = np.zeros((2**level+1, 3))` with
`point_array[0] = m_start`, `point_array[-1] = m_end`, the two endpoint
normals set to `m_start - m_end`, then the bisection loop.  Returns the
final `(point_array, normal_array)` pair. -/
def extractRaw (data : List Vec3) (offsets : List ℕ) (level : ℕ) (ms me : Vec3) :
    List Vec3 × List Vec3 :=
  let n := 2 ^ level + 1
  let pa := ((List.replicate n vzero).set 0 ms).set (2 ^ level) me
  let na := ((List.replicate n vzero).set 0 (Vec3.sub ms me)).set (2 ^ level)
    (Vec3.sub ms me)
  (levelPairs level).foldl (extractStep data offsets level) (pa, na)

/-! ## `get_dist_from_median_trajectory`: the Median/Distance Estimator

For each interior node `i` the plane is `(point_array[i],
point_array[i-1] - point_array[i+1])`; crossings are detected as above and
additionally filtered to the center-of-mass side (lines 251-255).  Two
numpy facts shape the embedding and are modelled by `Option`:

* when the surviving index list is empty, it is the float-dtype array
  `np.array([])` of shape `(0,)`, and `np.take_along_axis(streams_data,
  idx, axis=0)` (line 258) raises `ValueError` (`indices` and `arr` must
  have the same number of dimensions) — uncaught;
* when `compute_dist` is true and the list is nonempty, the per-crossing
  owner lookup `get_streamline_number_from_index(streams, idx[j])`
  (line 272) receives the one-element array `idx[j]` of shape `(1,)`, takes
  the non-`int` branch, and `np.roll(isin, -1, axis=1)` on the 1-D `isin`
  raises `AxisError` (axis 1 is out of bounds for array of dimension 1) —
  uncaught, before any assignment into `dist`.

So an execution returns exactly when every processed interior node has a
surviving crossing and `compute_dist` is false, or when there is no
interior node at all; in every returning execution `dist` is still its
initial `np.zeros((point_array.shape[0], len(streams._offsets)))`. -/

/-- The center-of-mass filter (lines 251-255): index `p` survives unless
`np.sum((midpoint - center)*(streams_data[p] - center)) < 0`. -/
def comKeep (center mp p : Vec3) : Bool :=
  ¬ Vec3.dot (Vec3.sub mp center) (Vec3.sub p center) < 0

/-- Crossing indices of `get_dist_from_median_trajectory` at one interior
node: boundary-filtered crossings further filtered to the center-of-mass
side. -/
def distCross (data : List Vec3) (offsets : List ℕ) (center mp nrm : Vec3) :
    List ℕ :=
  (crossIdx data offsets mp nrm).filter
    (fun p => comKeep center mp (data.getD p vzero))

/-- Loop body of `get_dist_from_median_trajectory` for one interior index
`i` (the caller only passes `1 ≤ i ≤ n-2`); state is `none` once an
uncaught numpy exception has been raised, otherwise `some (dist,
median_array)`. -/
def getDistStep (data : List Vec3) (offsets : List ℕ) (center : Vec3)
    (pa : List Vec3) (computeDist : Bool)
    (st : Option (List (List ℚ) × List Vec3)) (i : ℕ) :
    Option (List (List ℚ) × List Vec3) :=
  match st with
  | none => none
  | some (dist, med) =>
    let mp := pa.getD i vzero
    let nrm := Vec3.sub (pa.getD (i - 1) vzero) (pa.getD (i + 1) vzero)
    let idx := distCross data offsets center mp nrm
    if idx.isEmpty then
      none  -- ValueError in np.take_along_axis (empty float index array)
    else
      let pos := idx.map (fun p => data.getD p vzero)
      let med' := med.set i (vmedian pos)
      if computeDist then
        none  -- AxisError in get_streamline_number_from_index (1-elem array)
      else some (dist, med')

/-- `get_dist_from_median_trajectory(trk_file, point_array, compute_dist)`
minus the external I/O: `data`/`offsets` are the loaded tractogram,
`center` the center of mass of the occupancy volume (computed externally by
`tract_to_ROI`).  `dist = np.zeros((n, len(streams._offsets)))`,
`median_array = point_array.copy()`, then the loop skips `i = 0`
(`continue`) and stops before `i = n-1` (`break`). -/
def getDist (data : List Vec3) (offsets : List ℕ) (center : Vec3)
    (pa : List Vec3) (computeDist : Bool) :
    Option (List (List ℚ) × List Vec3) :=
  let dist0 := List.replicate pa.length (List.replicate offsets.length (0 : ℚ))
  (List.range' 1 (pa.length - 2)).foldl
    (getDistStep data offsets center pa computeDist) (some (dist0, pa))

/-- `extract_nodes` after orientation resolution: builds the raw point
array and, when `smooth` is true, replaces it by the median-adjusted array
of `get_dist_from_median_trajectory(..., compute_dist=False)`. -/
def extractNodes (data : List Vec3) (offsets : List ℕ) (center : Vec3)
    (level : ℕ) (smooth : Bool) (ms me : Vec3) : Option (List Vec3) :=
  let pa := (extractRaw data offsets level ms me).1
  if smooth then
    match getDist data offsets center pa false with
    | some r => some r.2
    | none => none
  else some pa

/-! ## Orientation tie-break (`extract_nodes`, lines 64-79)

`m_start`/`m_end` are the means of the selected (length-filtered) curve
start/end points; the k-means endpoint clustering and the quartile
selection feeding them are external capabilities.  The tie-break re-orders
the two means. -/

/-- `np.where(q > 0, 1, -1)` on a scalar. -/
def sgn1 (q : ℚ) : ℤ := if 0 < q then 1 else -1

/-- `np.argmax` over three values: index of the first maximum. -/
def argmax3 (a b c : ℚ) : ℕ := if b ≤ a ∧ c ≤ a then 0 else if c ≤ b then 1 else 2

/-- `np.argmin` over three values: index of the first minimum. -/
def argmin3 (a b c : ℚ) : ℕ := if a ≤ b ∧ a ≤ c then 0 else if b ≤ c then 1 else 2

/-- Component access by axis index. -/
def vecComp (v : Vec3) (k : ℕ) : ℚ := if k = 0 then v.x else if k = 1 then v.y else v.z

/-- `diff_abs = np.abs(m_start - m_end)`. -/
def diffAbs (ms me : Vec3) : Vec3 := ⟨|ms.x - me.x|, |ms.y - me.y|, |ms.z - me.z|⟩

/-- Dominant-axis rule guard (line 71):
`diff_abs[main_dir] > np.sum(diff_abs) - diff_abs[main_dir]`. -/
def orientCond1 (ms me : Vec3) : Prop :=
  let d := diffAbs ms me
  let main := argmax3 d.x d.y d.z
  let s := d.x + d.y + d.z
  s - vecComp d main < vecComp d main

/-- Smallest-axis rule guard (line 74):
`diff_abs[small_dir] < (np.sum(diff_abs) - diff_abs[small_dir])/4`. -/
def orientCond2 (ms me : Vec3) : Prop :=
  let d := diffAbs ms me
  let small := argmin3 d.x d.y d.z
  let s := d.x + d.y + d.z
  vecComp d small < (s - vecComp d small) / 4

instance (ms me : Vec3) : Decidable (orientCond1 ms me) := by
  unfold orientCond1; exact inferInstance

instance (ms me : Vec3) : Decidable (orientCond2 ms me) := by
  unfold orientCond2; exact inferInstance

/-- `vote = np.sum(np.where(m_start - m_end > 0, 1, -1))` (line 70): the
componentwise sign of the single mean difference, summed over the three
axes. -/
def codeVote (ms me : Vec3) : ℤ :=
  sgn1 (ms.x - me.x) + sgn1 (ms.y - me.y) + sgn1 (ms.z - me.z)

/-- The orientation tie-break (lines 67-79): returns the re-ordered
`(m_start, m_end)`. -/
def orientResolve (ms me : Vec3) : Vec3 × Vec3 :=
  let d := diffAbs ms me
  let main := argmax3 d.x d.y d.z
  let small := argmin3 d.x d.y d.z
  if orientCond1 ms me then
    if vecComp me main < vecComp ms main then (me, ms) else (ms, me)
  else if orientCond2 ms me then
    let idx := if small = 0 then 1 else 0
    if vecComp me idx < vecComp ms idx then (me, ms) else (ms, me)
  else if 0 < codeVote ms me then (me, ms) else (ms, me)

/-- Modelled from the spec: the majority vote the spec attributes to the
fallback tie-break — "for every curve, sign of `(start − end)` summed
componentwise".  This computation does not occur in the source (which sums
the three component signs of the single mean difference, `codeVote`); it is
stated here only to compare the two. -/
def specCurveVote (starts ends : List Vec3) : ℤ :=
  ((starts.zip ends).map (fun se =>
    sgn1 (se.1.x - se.2.x) + sgn1 (se.1.y - se.2.y) + sgn1 (se.1.z - se.2.z))).sum

/-! ## `remove_outlier_streamlines`: the Density Outlier Filter

Per interior node the plane is `(point_array[i], point_array[i-1] -
point_array[i+1])` with the normal divided by its Euclidean length
(lines 347-349); crossings are detected exactly as in `crossIdx`
(lines 351-356) — the only filter applied is the curve-boundary exclusion.
The per-node Gaussian KDE (an external, pluggable estimator working in
floating point) fills a density matrix `dens` of shape `(n_nodes,
n_curves)`; rows 0 and `n_nodes-1` are never written.  The outlier
selection (lines 385-403) is embedded from `dens` onwards, with the
threshold `t = neighbors_required/(2*np.pi*bandwidth**2)` abstracted as a
rational parameter (π is transcendental; every selection step depends only
on the order of the values). -/

/-- Crossing detection of `remove_outlier_streamlines` at one interior
node.  The source first rescales the normal by the positive scalar
`1/np.linalg.norm(normal)`; the scalar is abstracted as `c` (a Euclidean
length is irrational in general), and `outlierCross_scale_invariant` below
shows any positive `c` yields the same indices. -/
def outlierCross (data : List Vec3) (offsets : List ℕ) (mp nrm : Vec3) (c : ℚ) :
    List ℕ :=
  crossIdx data offsets mp (Vec3.smul c nrm)

/-- Modelled from the spec: the start/end-plane consistency filter that
§4.4 of the spec claims is applied by the Density Outlier Filter — a
detected crossing is kept only if it lies on the side of the plane at
`node[i-1]` and of the plane at `node[i+1]` (both with the window normal)
that the midpoint itself lies on.  This filter does not occur in the
source's `remove_outlier_streamlines`; it is stated here only to compare
against `outlierCross`. -/
def specConsistencyCross (data : List Vec3) (offsets : List ℕ)
    (prevNode nextNode mp nrm : Vec3) : List ℕ :=
  (crossIdx data offsets mp nrm).filter (fun p =>
    planeSide prevNode nrm (data.getD p vzero) = planeSide prevNode nrm mp ∧
    planeSide nextNode nrm (data.getD p vzero) = planeSide nextNode nrm mp)

/-- `m = np.mean(dens, axis=1, where=dens != 0)`: per-row mean over the
nonzero entries (NaN for an all-zero row in numpy; the value is then never
used because such entries are already unflagged by `dens == 0`). -/
def rowMeanNZ {nr nc : ℕ} (dens : Fin nr → Fin nc → ℚ) (i : Fin nr) : ℚ :=
  let s := Finset.univ.filter (fun c => dens i c ≠ 0)
  (∑ c ∈ s, dens i c) / (s.card : ℚ)

/-- Lines 389-391: `outliers = dens <= t`, then entries with `dens == 0`
or `dens > m` are unflagged. -/
def isOutlierAt {nr nc : ℕ} (dens : Fin nr → Fin nc → ℚ) (t : ℚ)
    (i : Fin nr) (c : Fin nc) : Prop :=
  dens i c ≤ t ∧ dens i c ≠ 0 ∧ ¬ rowMeanNZ dens i < dens i c

instance {nr nc : ℕ} (dens : Fin nr → Fin nc → ℚ) (t : ℚ) (i : Fin nr)
    (c : Fin nc) : Decidable (isOutlierAt dens t i c) :=
  inferInstanceAs (Decidable (_ ∧ _ ∧ _))

/-- `n_sign = np.sum(outliers, axis=0)` after `outliers = outliers[1:-1, :]`:
outlier-node count of curve `c` over the interior rows. -/
def nSign {nr nc : ℕ} (dens : Fin nr → Fin nc → ℚ) (t : ℚ) (c : Fin nc) : ℕ :=
  (Finset.univ.filter (fun i : Fin nr =>
    1 ≤ (i : ℕ) ∧ (i : ℕ) < nr - 1 ∧ isOutlierAt dens t i c)).card

/-- `n_val = np.sum(dens > 0, axis=0)`: rows with a recorded positive
density (taken over all rows of `dens`, whose boundary rows are zero in
every actual run). -/
def nVal {nr nc : ℕ} (dens : Fin nr → Fin nc → ℚ) (c : Fin nc) : ℕ :=
  (Finset.univ.filter (fun i : Fin nr => 0 < dens i c)).card

/-- `n_idx = np.argwhere(n_sign > n_val*outlier_ratio)`: curves flagged for
removal, in ascending index order. -/
def flaggedCurves {nr nc : ℕ} (dens : Fin nr → Fin nc → ℚ) (t ratio : ℚ) :
    List (Fin nc) :=
  (List.finRange nc).filter (fun c => (nVal dens c : ℚ) * ratio < (nSign dens t c : ℚ))

/-- `sorted_indexes = np.argsort(-n_sign)`: curve indices by descending
outlier-node count. -/
def signSorted {nr nc : ℕ} (dens : Fin nr → Fin nc → ℚ) (t : ℚ) : List (Fin nc) :=
  (List.finRange nc).insertionSort (fun a b => nSign dens t b ≤ nSign dens t a)

/-- Lines 397-403: the flagged curves, capped — when more than
`keep_ratio*len(n_sign)` curves are flagged, only the
`int(len(n_sign)*keep_ratio)` worst curves by outlier-node count are
removed. -/
def removedCurves {nr nc : ℕ} (dens : Fin nr → Fin nc → ℚ)
    (t ratio keepRatio : ℚ) : List (Fin nc) :=
  let flagged := flaggedCurves dens t ratio
  if keepRatio * (nc : ℚ) < (flagged.length : ℚ) then
    (signSorted dens t).take (Int.toNat ⌊(nc : ℚ) * keepRatio⌋)
  else flagged

/-! ## `get_roi_sections_from_nodes`: the Section Partitioner

The occupancy volume `trk_roi = tract_to_ROI(trk_file)` (external) is a 3D
array; the voxel grid is embedded as `Fin nx × Fin ny × Fin nz` with voxel
centers `index + 0.5` per axis (`np.linspace(0.5, shape-0.5, shape)`). -/

/-- A voxel of an `nx × ny × nz` volume. -/
abbrev Vox (nx ny nz : ℕ) := Fin nx × Fin ny × Fin nz

/-- Voxel-center coordinate built by the meshgrid (lines 495-499). -/
def coordOf {nx ny nz : ℕ} (v : Vox nx ny nz) : Vec3 :=
  ⟨(v.1 : ℚ) + 1/2, (v.2.1 : ℚ) + 1/2, (v.2.2 : ℚ) + 1/2⟩

/-- `center = tuple([np.average(indices) for indices in np.where(trk_roi == 1)])`
(line 492): per-axis average of the integer indices of occupied voxels
(NaN in numpy for an empty mask; `0` here, never relied upon). -/
def roiCenter {nx ny nz : ℕ} (trk : Vox nx ny nz → ℚ) : Vec3 :=
  let s := Finset.univ.filter (fun v : Vox nx ny nz => trk v = 1)
  ⟨(∑ v ∈ s, ((v.1 : ℕ) : ℚ)) / (s.card : ℚ),
   (∑ v ∈ s, ((v.2.1 : ℕ) : ℚ)) / (s.card : ℚ),
   (∑ v ∈ s, ((v.2.2 : ℕ) : ℚ)) / (s.card : ℚ)⟩

/-- The four node references of section `i ≥ 1` (lines 506-515).
`point_array[i-2]` is guarded by `try/except IndexError`, but for `i = 1`
the Python index is `-1`, which is *valid* negative indexing and yields the
last node — the `except` never fires there.  `point_array[i+1]` does raise
`IndexError` for the last section and falls back to `point_array[i]`. -/
def sectionRefs (pa : List Vec3) (i : ℕ) : Vec3 × Vec3 × Vec3 × Vec3 :=
  let mPrev := if i < 2 then pa.getD (pa.length - 1) vzero else pa.getD (i - 2) vzero
  let mStart := pa.getD (i - 1) vzero
  let mEnd := pa.getD i vzero
  let mNext := if i + 1 < pa.length then pa.getD (i + 1) vzero else pa.getD i vzero
  (mPrev, mStart, mEnd, mNext)

/-- Slab test of one voxel (lines 518-537): ±1 side of the start-bound
plane (normal `m_previous - m_end`, applied to `m_start - xyz`) must equal
the midpoint's side (`m_start - midpoint`), and ±1 side of the end-bound
plane (normal `m_start - m_next`, applied to `xyz - m_end`) must equal the
midpoint's side (`midpoint - m_end`). -/
def sliceOk {nx ny nz : ℕ} (pa : List Vec3) (i : ℕ) (v : Vox nx ny nz) : Bool :=
  let r := sectionRefs pa i
  let midpoint := windowMid r.2.1 r.2.2.1
  let nStart := Vec3.sub r.1 r.2.2.1
  let nEnd := Vec3.sub r.2.1 r.2.2.2
  (if 0 < Vec3.dot nStart (Vec3.sub r.2.1 (coordOf v)) then (1 : ℤ) else -1)
      = (if 0 < Vec3.dot nStart (Vec3.sub r.2.1 midpoint) then 1 else -1) ∧
  (if 0 < Vec3.dot nEnd (Vec3.sub (coordOf v) r.2.2.1) then (1 : ℤ) else -1)
      = (if 0 < Vec3.dot nEnd (Vec3.sub midpoint r.2.2.1) then 1 else -1)

/-- Center-of-mass test of one voxel (lines 539-542):
`np.sum((midpoint - center)*(xyz - center)) > 0`. -/
def comOk {nx ny nz : ℕ} (center : Vec3) (pa : List Vec3) (i : ℕ)
    (v : Vox nx ny nz) : Bool :=
  let r := sectionRefs pa i
  let midpoint := windowMid r.2.1 r.2.2.1
  0 < Vec3.dot (Vec3.sub midpoint center) (Vec3.sub (coordOf v) center)

/-- `roi_mp_slice = sign_mp_slice.reshape(trk_roi.shape) * trk_roi`. -/
def roiSliceVal {nx ny nz : ℕ} (trk : Vox nx ny nz → ℚ) (pa : List Vec3)
    (i : ℕ) (v : Vox nx ny nz) : ℚ :=
  (if sliceOk pa i v then 1 else 0) * trk v

/-- `roi = roi_mp_slice + roi_mp_com` (line 546). -/
def roiVal {nx ny nz : ℕ} (trk : Vox nx ny nz → ℚ) (center : Vec3)
    (pa : List Vec3) (i : ℕ) (v : Vox nx ny nz) : ℚ :=
  roiSliceVal trk pa i v + (if comOk center pa i v then 1 else 0) * trk v

/-- Python indexing of one axis with a possibly negative integer:
in-range and wrapped-negative indices resolve, anything else raises
`IndexError` (modelled as `none`). -/
def pyIdx (n : ℕ) (a : ℤ) : Option (Fin n) :=
  if h : 0 ≤ a ∧ a < (n : ℤ) then
    some ⟨a.toNat, by omega⟩
  else if h' : -(n : ℤ) ≤ a ∧ a < 0 then
    some ⟨(a + n).toNat, by omega⟩
  else none

/-- `dot = tuple(np.floor(midpoint).astype(int))` resolved against the
volume shape. -/
def pyVox (nx ny nz : ℕ) (p : Vec3) : Option (Vox nx ny nz) :=
  match pyIdx nx ⌊p.x⌋, pyIdx ny ⌊p.y⌋, pyIdx nz ⌊p.z⌋ with
  | some a, some b, some c => some (a, b, c)
  | _, _, _ => none

/-- Face adjacency (`connectivity=1` of `skimage.morphology.flood`). -/
def voxAdj {nx ny nz : ℕ} (a b : Vox nx ny nz) : Bool :=
  ((a.1 : ℤ) - b.1).natAbs + ((a.2.1 : ℤ) - b.2.1).natAbs
    + ((a.2.2 : ℤ) - b.2.2).natAbs = 1

/-- One growth step of the flood fill: add every voxel passing the
tolerance test that is face-adjacent to the region. -/
def floodStep {nx ny nz : ℕ} (ok : Vox nx ny nz → Bool)
    (s : Finset (Vox nx ny nz)) : Finset (Vox nx ny nz) :=
  s ∪ Finset.univ.filter (fun w => ok w = true ∧ ∃ v ∈ s, voxAdj v w = true)

/-- `skimage.morphology.flood(image, seed, tolerance, connectivity=1)`:
the face-connected region around the seed of voxels whose value is within
`tolerance` of the seed's value; iterating the growth step once per voxel
reaches the fixed point. -/
def flood {nx ny nz : ℕ} (img : Vox nx ny nz → ℚ) (seed : Vox nx ny nz)
    (tol : ℚ) : Finset (Vox nx ny nz) :=
  (floodStep (fun w => decide (|img w - img seed| ≤ tol)))^[Fintype.card (Vox nx ny nz)]
    {seed}

/-- The labelling region of section `i` (lines 544-554): the raw `roi`
values, optionally replaced by the flood-fill cleanup.  The cleanup indexes
`roi` at the floored midpoint; an unresolvable index is an uncaught
`IndexError` (`none`). -/
def sectionRoi {nx ny nz : ℕ} (trk : Vox nx ny nz → ℚ) (center : Vec3)
    (pa : List Vec3) (i : ℕ) : Bool → Option (Vox nx ny nz → ℚ)
  | false => some (roiVal trk center pa i)
  | true =>
    match pyVox nx ny nz
        (windowMid (sectionRefs pa i).2.1 (sectionRefs pa i).2.2.1) with
    | none => none
    | some dv =>
      if roiVal trk center pa i dv = 2 then
        some (fun v =>
          if v ∈ flood (fun w => roiVal trk center pa i w * roiSliceVal trk pa i w)
              dv 1 then 2 else 0)
      else some (roiVal trk center pa i)

/-- One iteration of the section loop: `mask[roi == 2] = i`. -/
def roiSectionsStep {nx ny nz : ℕ} (trk : Vox nx ny nz → ℚ) (center : Vec3)
    (pa : List Vec3) (simplify : Bool) (st : Option (Vox nx ny nz → ℕ))
    (i : ℕ) : Option (Vox nx ny nz → ℕ) :=
  match st with
  | none => none
  | some mask =>
    match sectionRoi trk center pa i simplify with
    | none => none
    | some roi => some (fun v => if roi v = 2 then i else mask v)

/-- `get_roi_sections_from_nodes(trk_file, point_array, simplify_shape)`
minus the external I/O: `mask = np.zeros(trk_roi.shape)`, the loop skips
`i = 0` and labels sections `1 … n-1`. -/
def roiSections {nx ny nz : ℕ} (trk : Vox nx ny nz → ℚ) (pa : List Vec3)
    (simplify : Bool) : Option (Vox nx ny nz → ℕ) :=
  let center := roiCenter trk
  (List.range' 1 (pa.length - 1)).foldl
    (roiSectionsStep trk center pa simplify) (some (fun _ => 0))

/-! ## Helper lemmas -/

theorem foldl_preserve {α β : Type _} {P : α → Prop} {f : α → β → α}
    {l : List β} {a : α} (h : ∀ a' b, b ∈ l → P a' → P (f a' b)) (h0 : P a) :
    P (l.foldl f a) := by
  induction l generalizing a with
  | nil => exact h0
  | cons x xs ih =>
    exact ih (fun a' b hb => h a' b (List.mem_cons_of_mem _ hb))
      (h a x (List.mem_cons_self _ _) h0)

theorem getD_set_ne {α : Type _} {l : List α} {m k : ℕ} (h : m ≠ k) (a d : α) :
    (l.set m a).getD k d = l.getD k d := by
  simp [List.getD_eq_getElem?_getD, List.getElem?_set_ne h]

theorem getD_set_self {α : Type _} {l : List α} {k : ℕ} (h : k < l.length)
    (a d : α) : (l.set k a).getD k d = a := by
  simp [List.getD_eq_getElem?_getD, List.getElem?_set_self h]

theorem levelPairs_mem {level j i : ℕ} (h : (j, i) ∈ levelPairs level) :
    j < level ∧ i < 2 ^ j := by
  simp only [levelPairs, List.mem_flatMap, List.mem_map, List.mem_range] at h
  obtain ⟨j', hj', i', hi', he⟩ := h
  cases he
  exact ⟨hj', hi'⟩

theorem midIdx_bounds {level j i : ℕ} (hj : j < level) (hi : i < 2 ^ j) :
    0 < 2 ^ (level - j - 1) * (2 * i + 1) ∧
      2 ^ (level - j - 1) * (2 * i + 1) < 2 ^ level := by
  constructor
  · positivity
  · have h1 : 2 * i + 1 < 2 * 2 ^ j := by omega
    have h2 : 2 ^ (level - j - 1) * (2 * i + 1)
        < 2 ^ (level - j - 1) * (2 * 2 ^ j) :=
      mul_lt_mul_of_pos_left h1 (pow_pos (by norm_num) _)
    have h3 : 2 ^ (level - j - 1) * (2 * 2 ^ j) = 2 ^ level := by
      rw [show 2 * 2 ^ j = 2 ^ (j + 1) by ring, ← pow_add]
      congr 1
      omega
    omega

/-- The bisection loop never touches rows `0` and `2^level` of the point
array: its writes go to odd multiples of the stride, all strictly inside. -/
theorem extractRaw_props (data : List Vec3) (offsets : List ℕ) (level : ℕ)
    (ms me : Vec3) :
    (extractRaw data offsets level ms me).1.length = 2 ^ level + 1 ∧
    (extractRaw data offsets level ms me).1.getD 0 vzero = ms ∧
    (extractRaw data offsets level ms me).1.getD (2 ^ level) vzero = me := by
  unfold extractRaw
  refine foldl_preserve (P := fun st : List Vec3 × List Vec3 =>
    st.1.length = 2 ^ level + 1 ∧ st.1.getD 0 vzero = ms ∧
      st.1.getD (2 ^ level) vzero = me) ?_ ?_
  · rintro ⟨pa, na⟩ ⟨j, i⟩ hmem ⟨hlen, h0, hlast⟩
    obtain ⟨hj, hi⟩ := levelPairs_mem hmem
    obtain ⟨hpos, hlt⟩ := midIdx_bounds hj hi
    refine ⟨?_, ?_, ?_⟩
    · simp only [extractStep, List.length_set]
      exact hlen
    · simp only [extractStep]
      rw [getD_set_ne (show 2 ^ (level - j - 1) * (2 * i + 1) ≠ 0 by omega)]
      exact h0
    · simp only [extractStep]
      rw [getD_set_ne (show 2 ^ (level - j - 1) * (2 * i + 1) ≠ 2 ^ level by omega)]
      exact hlast
  · refine ⟨by simp, ?_, ?_⟩
    · rw [getD_set_ne (by positivity : 2 ^ level ≠ 0),
        getD_set_self (by simp : 0 < (List.replicate (2 ^ level + 1) vzero).length)]
    · rw [getD_set_self (by simp : 2 ^ level <
        ((List.replicate (2 ^ level + 1) vzero).set 0 ms).length)]

/-- Every returning execution of `get_dist_from_median_trajectory` leaves
the two endpoint rows of `median_array` untouched, and leaves `dist` at its
all-zero initialisation. -/
theorem getDist_some {data : List Vec3} {offsets : List ℕ} {center : Vec3}
    {pa : List Vec3} {computeDist : Bool} {dist : List (List ℚ)} {med : List Vec3}
    (h : getDist data offsets center pa computeDist = some (dist, med)) :
    med.length = pa.length ∧
    med.getD 0 vzero = pa.getD 0 vzero ∧
    med.getD (pa.length - 1) vzero = pa.getD (pa.length - 1) vzero ∧
    dist = List.replicate pa.length (List.replicate offsets.length (0 : ℚ)) := by
  have key := foldl_preserve
    (P := fun st : Option (List (List ℚ) × List Vec3) =>
      ∀ d m, st = some (d, m) →
        m.length = pa.length ∧ m.getD 0 vzero = pa.getD 0 vzero ∧
        m.getD (pa.length - 1) vzero = pa.getD (pa.length - 1) vzero ∧
        d = List.replicate pa.length (List.replicate offsets.length (0 : ℚ)))
    (l := List.range' 1 (pa.length - 2))
    (f := getDistStep data offsets center pa computeDist)
    (a := some (List.replicate pa.length (List.replicate offsets.length (0 : ℚ)), pa))
    ?_ ?_
  · exact key dist med h
  · rintro st i hmem hP d m hsome
    have hi : 1 ≤ i ∧ i ≠ 0 ∧ i ≠ pa.length - 1 := by
      obtain ⟨k, hk, rfl⟩ := List.mem_range'.1 hmem
      omega
    match st with
    | none => simp [getDistStep] at hsome
    | some (d0, m0) =>
      obtain ⟨hl0, h00, hl0', hd0⟩ := hP d0 m0 rfl
      simp only [getDistStep] at hsome
      by_cases he : (distCross data offsets center (pa.getD i vzero)
          (Vec3.sub (pa.getD (i - 1) vzero) (pa.getD (i + 1) vzero))).isEmpty
      · rw [if_pos he] at hsome
        exact absurd hsome (by simp)
      · rw [if_neg he] at hsome
        cases computeDist with
        | true =>
          rw [if_pos rfl] at hsome
          exact absurd hsome (by simp)
        | false =>
          rw [if_neg (by simp)] at hsome
          have hpair := Option.some.inj hsome
          have hd : d0 = d := congrArg Prod.fst hpair
          have hm : m0.set i (vmedian ((distCross data offsets center
              (pa.getD i vzero) (Vec3.sub (pa.getD (i - 1) vzero)
                (pa.getD (i + 1) vzero))).map (fun p => data.getD p vzero))) = m :=
            congrArg Prod.snd hpair
          subst hd
          subst hm
          refine ⟨by simpa using hl0, ?_, ?_, hd0⟩
          · rw [getD_set_ne hi.2.1]
            exact h00
          · rw [getD_set_ne hi.2.2]
            exact hl0'
  · rintro d m hsome
    simp only [Option.some.injEq, Prod.mk.injEq] at hsome
    obtain ⟨rfl, rfl⟩ := hsome
    exact ⟨rfl, rfl, rfl, rfl⟩

/-- Every element of any row of the all-zero matrix is zero. -/
theorem zeros_row_all_zero (n nc i : ℕ) :
    ∀ q ∈ (List.replicate n (List.replicate nc (0 : ℚ))).getD i [], q = 0 := by
  intro q hq
  rcases lt_or_ge i n with h | h
  · rw [List.getD_eq_getElem?_getD, List.getElem?_replicate, if_pos h] at hq
    exact (List.eq_of_mem_replicate hq)
  · rw [List.getD_eq_getElem?_getD, List.getElem?_replicate, if_neg (by omega)] at hq
    simp at hq

/-- If `p` is not a curve start and not the total, the owner lookup gives
the same curve for `p - 1` and `p`: the indicator lists over
`offsets ++ [total]` coincide. -/
theorem streamlineNumber_pred_eq {offsets : List ℕ} {total p : ℕ}
    (h1 : 1 ≤ p) (h2 : p < total) (h3 : p ∉ offsets) :
    streamlineNumber offsets total (p - 1) = streamlineNumber offsets total p := by
  have hmap : (offsets ++ [total]).map (fun o => if p - 1 < o then (1 : ℤ) else 0)
      = (offsets ++ [total]).map (fun o => if p < o then (1 : ℤ) else 0) := by
    apply List.map_congr_left
    intro o ho
    have hop : o ≠ p := by
      rcases List.mem_append.1 ho with h | h
      · exact fun he => h3 (he ▸ h)
      · simp only [List.mem_singleton] at h
        omega
    have hiff : (p - 1 < o) ↔ (p < o) := by omega
    simp [hiff]
  simp only [streamlineNumber]
  rw [hmap]

theorem crossIdx_mem {data : List Vec3} {offsets : List ℕ} {mp nrm : Vec3}
    {p : ℕ} (h : p ∈ crossIdx data offsets mp nrm) :
    p < data.length ∧ p ∉ offsets := by
  simp only [crossIdx, List.mem_filter, decide_eq_true_eq] at h
  refine ⟨?_, h.2⟩
  have := List.mem_of_mem_filter h.1
  simpa [rawCross] using List.mem_range.1 (List.mem_of_mem_filter h.1)

/-- `extract_nodes` returns size and endpoint guarantees for every
returning execution (shared by the C1 and C10 theorems). -/
theorem extractNodes_props {data : List Vec3} {offsets : List ℕ} {center : Vec3}
    {level : ℕ} {smooth : Bool} {ms me : Vec3} {arr : List Vec3}
    (h : extractNodes data offsets center level smooth ms me = some arr) :
    arr.length = 2 ^ level + 1 ∧ arr.getD 0 vzero = ms ∧
    arr.getD (2 ^ level) vzero = me := by
  obtain ⟨hlen, h0, hlast⟩ := extractRaw_props data offsets level ms me
  cases smooth with
  | false =>
    simp only [extractNodes, Bool.false_eq_true, if_false] at h
    cases Option.some.inj h
    exact ⟨hlen, h0, hlast⟩
  | true =>
    simp only [extractNodes, if_pos rfl] at h
    cases hg : getDist data offsets center
        (extractRaw data offsets level ms me).1 false with
    | none => rw [hg] at h; exact absurd h (by simp)
    | some r =>
      obtain ⟨dist, med⟩ := r
      rw [hg] at h
      have harr : med = arr := Option.some.inj h
      subst harr
      obtain ⟨hml, hm0, hml', _⟩ := getDist_some hg
      refine ⟨by omega, by rwa [h0] at hm0, ?_⟩
      have hone : (extractRaw data offsets level ms me).1.length - 1 = 2 ^ level := by
        rw [hlen]
        exact Nat.add_sub_cancel _ _
      rw [hone] at hml'
      rwa [hlast] at hml'

/-- C1: for every `level ≥ 0`, `extract_nodes` returns an array of exactly
`2^level + 1` skeleton nodes, and node 0 and the last node equal the
resolved `m_start` and `m_end`; this holds exactly for `smooth = False`
(which always returns), and also exactly — not merely up to an adjustment —
for every returning `smooth = True` execution, because the smoothing pass
never touches the endpoint rows. -/
theorem extract_skeleton_size_and_endpoints (data : List Vec3)
    (offsets : List ℕ) (center : Vec3) (level : ℕ) (ms me : Vec3) :
    (extractNodes data offsets center level false ms me).isSome ∧
    ∀ smooth arr, extractNodes data offsets center level smooth ms me = some arr →
      arr.length = 2 ^ level + 1 ∧ arr.getD 0 vzero = ms ∧
      arr.getD (2 ^ level) vzero = me :=
  ⟨by simp [extractNodes], fun _ _ h => extractNodes_props h⟩

unseal Rat.mul Rat.add Rat.sub Rat.inv Rat.ofScientific in
theorem extract_skeleton_size_and_endpoints_witness :
    extractNodes [] [] vzero 0 false ⟨1, 2, 3⟩ ⟨4, 5, 6⟩
        = some [⟨1, 2, 3⟩, ⟨4, 5, 6⟩] ∧
    ([⟨1, 2, 3⟩, ⟨4, 5, 6⟩] : List Vec3).length = 2 ^ 0 + 1 ∧
    ([⟨1, 2, 3⟩, ⟨4, 5, 6⟩] : List Vec3).getD 0 vzero = ⟨1, 2, 3⟩ ∧
    ([⟨1, 2, 3⟩, ⟨4, 5, 6⟩] : List Vec3).getD (2 ^ 0) vzero = ⟨4, 5, 6⟩ :=
  ⟨by decide,
   (extract_skeleton_size_and_endpoints [] [] vzero 0 ⟨1, 2, 3⟩ ⟨4, 5, 6⟩).2
     false _ (by decide)⟩

/-- C10: `get_dist_from_median_trajectory` modifies only interior entries —
for every returning execution the median-adjusted array equals the input at
index 0 and the last index, rows 0 and last of the distance map are
all-zero, and consequently the smoothing pass of `extract_nodes` never
moves the two endpoint nodes. -/
theorem median_trajectory_frame (data : List Vec3) (offsets : List ℕ)
    (center : Vec3) :
    (∀ pa computeDist dist med,
      getDist data offsets center pa computeDist = some (dist, med) →
        med.length = pa.length ∧
        med.getD 0 vzero = pa.getD 0 vzero ∧
        med.getD (pa.length - 1) vzero = pa.getD (pa.length - 1) vzero ∧
        (∀ q ∈ dist.getD 0 [], q = 0) ∧
        (∀ q ∈ dist.getD (pa.length - 1) [], q = 0)) ∧
    (∀ level ms me arr,
      extractNodes data offsets center level true ms me = some arr →
        arr.getD 0 vzero = ms ∧ arr.getD (2 ^ level) vzero = me) := by
  constructor
  · intro pa computeDist dist med h
    obtain ⟨h1, h2, h3, h4⟩ := getDist_some h
    subst h4
    exact ⟨h1, h2, h3, zeros_row_all_zero _ _ _, zeros_row_all_zero _ _ _⟩
  · intro level ms me arr h
    exact (extractNodes_props h).2

unseal Rat.mul Rat.add Rat.sub Rat.inv Rat.ofScientific in
theorem median_trajectory_frame_witness :
    getDist [⟨1, 0, 0⟩, ⟨3, 0, 0⟩] [0] ⟨0, 0, 0⟩
        [⟨0, 0, 0⟩, ⟨2, 0, 0⟩, ⟨4, 0, 0⟩] false
      = some ([[0], [0], [0]], [⟨0, 0, 0⟩, ⟨3, 0, 0⟩, ⟨4, 0, 0⟩]) ∧
    ([⟨0, 0, 0⟩, ⟨3, 0, 0⟩, ⟨4, 0, 0⟩] : List Vec3).getD 0 vzero
      = ([⟨0, 0, 0⟩, ⟨2, 0, 0⟩, ⟨4, 0, 0⟩] : List Vec3).getD 0 vzero ∧
    ([⟨0, 0, 0⟩, ⟨3, 0, 0⟩, ⟨4, 0, 0⟩] : List Vec3).getD
        (([⟨0, 0, 0⟩, ⟨2, 0, 0⟩, ⟨4, 0, 0⟩] : List Vec3).length - 1) vzero
      = ([⟨0, 0, 0⟩, ⟨2, 0, 0⟩, ⟨4, 0, 0⟩] : List Vec3).getD
        (([⟨0, 0, 0⟩, ⟨2, 0, 0⟩, ⟨4, 0, 0⟩] : List Vec3).length - 1) vzero ∧
    extractNodes [⟨1, 0, 0⟩, ⟨3, 0, 0⟩] [0] ⟨0, 0, 0⟩ 0 true ⟨1, 2, 3⟩ ⟨4, 5, 6⟩
      = some [⟨1, 2, 3⟩, ⟨4, 5, 6⟩] ∧
    ([⟨1, 2, 3⟩, ⟨4, 5, 6⟩] : List Vec3).getD 0 vzero = ⟨1, 2, 3⟩ :=
  ⟨by decide,
   ((median_trajectory_frame [⟨1, 0, 0⟩, ⟨3, 0, 0⟩] [0] ⟨0, 0, 0⟩).1
     [⟨0, 0, 0⟩, ⟨2, 0, 0⟩, ⟨4, 0, 0⟩] false [[0], [0], [0]]
     [⟨0, 0, 0⟩, ⟨3, 0, 0⟩, ⟨4, 0, 0⟩] (by decide)).2.1,
   ((median_trajectory_frame [⟨1, 0, 0⟩, ⟨3, 0, 0⟩] [0] ⟨0, 0, 0⟩).1
     [⟨0, 0, 0⟩, ⟨2, 0, 0⟩, ⟨4, 0, 0⟩] false [[0], [0], [0]]
     [⟨0, 0, 0⟩, ⟨3, 0, 0⟩, ⟨4, 0, 0⟩] (by decide)).2.2.1,
   by decide,
   ((median_trajectory_frame [⟨1, 0, 0⟩, ⟨3, 0, 0⟩] [0] ⟨0, 0, 0⟩).2
     0 ⟨1, 2, 3⟩ ⟨4, 5, 6⟩ [⟨1, 2, 3⟩, ⟨4, 5, 6⟩] (by decide)).1⟩

/-- C3: no crossing detector of the module (the skeleton builder's
`windowCross`, the median estimator's `distCross`, the outlier filter's
`outlierCross`) ever reports a crossing between the last point of one
curve and the first point of the next: every reported flat index `p` is
positive, within range, not a curve start, and `p-1` and `p` belong to the
same curve — in particular the `np.roll` wrap pairing the last point of the
last curve with the first point of the first curve (flat index 0) is also
excluded, because 0 is a curve-start offset. -/
theorem crossing_never_at_curve_boundary (data : List Vec3)
    (offsets : List ℕ) (h0 : 0 ∈ offsets) (ms me nprev nnext center mp nrm : Vec3)
    (c : ℚ) :
    ∀ p, (p ∈ windowCross data offsets ms me nprev nnext ∨
          p ∈ distCross data offsets center mp nrm ∨
          p ∈ outlierCross data offsets mp nrm c) →
      1 ≤ p ∧ p < data.length ∧ p ∉ offsets ∧
      streamlineNumber offsets data.length (p - 1) =
        streamlineNumber offsets data.length p := by
  intro p hp
  have hmem : p < data.length ∧ p ∉ offsets := by
    rcases hp with h | h | h
    · exact crossIdx_mem (List.mem_of_mem_filter h)
    · exact crossIdx_mem (List.mem_of_mem_filter h)
    · exact crossIdx_mem h
  have h1 : 1 ≤ p := by
    rcases Nat.eq_zero_or_pos p with rfl | h
    · exact absurd h0 hmem.2
    · exact h
  exact ⟨h1, hmem.1, hmem.2,
    streamlineNumber_pred_eq h1 hmem.1 hmem.2⟩

unseal Rat.mul Rat.add Rat.sub Rat.inv Rat.ofScientific in
theorem crossing_never_at_curve_boundary_witness :
    (0 ∈ [0]) ∧
    ∀ p, (p ∈ windowCross [⟨1, 0, 0⟩, ⟨3, 0, 0⟩] [0] ⟨0, 0, 0⟩ ⟨4, 0, 0⟩
            ⟨1, 0, 0⟩ ⟨1, 0, 0⟩ ∨
          p ∈ distCross [⟨1, 0, 0⟩, ⟨3, 0, 0⟩] [0] ⟨0, 0, 0⟩ ⟨2, 0, 0⟩
            ⟨-4, 0, 0⟩ ∨
          p ∈ outlierCross [⟨1, 0, 0⟩, ⟨3, 0, 0⟩] [0] ⟨2, 0, 0⟩ ⟨-4, 0, 0⟩ (1/5)) →
      1 ≤ p ∧ p < ([⟨1, 0, 0⟩, ⟨3, 0, 0⟩] : List Vec3).length ∧ p ∉ [0] ∧
      streamlineNumber [0] ([⟨1, 0, 0⟩, ⟨3, 0, 0⟩] : List Vec3).length (p - 1) =
        streamlineNumber [0] ([⟨1, 0, 0⟩, ⟨3, 0, 0⟩] : List Vec3).length p :=
  ⟨by decide,
   crossing_never_at_curve_boundary [⟨1, 0, 0⟩, ⟨3, 0, 0⟩] [0] (by decide)
     ⟨0, 0, 0⟩ ⟨4, 0, 0⟩ ⟨1, 0, 0⟩ ⟨1, 0, 0⟩ ⟨0, 0, 0⟩ ⟨2, 0, 0⟩ ⟨-4, 0, 0⟩ (1/5)⟩

/-- C5: in the Skeleton Builder, for every window at every level, if no
curve point passes the crossing and consistency filters at the window's
midplane, the new node position is the geometric midpoint
`(m_start + m_end)/2`; the degenerate case is the locally caught
`IndexError` branch, so the node computation is total and no error is
propagated. -/
theorem skeleton_degenerate_midpoint_fallback (data : List Vec3)
    (offsets : List ℕ) (ms me nprev nnext : Vec3)
    (h : ∀ p ∈ crossIdx data offsets (windowMid ms me) (Vec3.sub ms me),
      windowFilterOk data ms me nprev nnext p = false) :
    windowNode data offsets ms me nprev nnext = windowMid ms me := by
  have he : windowCross data offsets ms me nprev nnext = [] := by
    simp only [windowCross, List.filter_eq_nil_iff]
    intro p hp
    simp [h p hp]
  simp [windowNode, he]

unseal Rat.mul Rat.add Rat.sub Rat.inv Rat.ofScientific in
theorem skeleton_degenerate_midpoint_fallback_witness :
    (∀ p ∈ crossIdx [⟨1, 0, 1⟩, ⟨3, 0, 1⟩] [0]
        (windowMid ⟨0, 0, 0⟩ ⟨4, 0, 0⟩) (Vec3.sub ⟨0, 0, 0⟩ ⟨4, 0, 0⟩),
      windowFilterOk [⟨1, 0, 1⟩, ⟨3, 0, 1⟩] ⟨0, 0, 0⟩ ⟨4, 0, 0⟩ ⟨0, 0, 1⟩
        ⟨0, 0, 1⟩ p = false) ∧
    windowNode [⟨1, 0, 1⟩, ⟨3, 0, 1⟩] [0] ⟨0, 0, 0⟩ ⟨4, 0, 0⟩ ⟨0, 0, 1⟩ ⟨0, 0, 1⟩
      = windowMid ⟨0, 0, 0⟩ ⟨4, 0, 0⟩ :=
  ⟨by decide,
   skeleton_degenerate_midpoint_fallback [⟨1, 0, 1⟩, ⟨3, 0, 1⟩] [0]
     ⟨0, 0, 0⟩ ⟨4, 0, 0⟩ ⟨0, 0, 1⟩ ⟨0, 0, 1⟩ (by decide)⟩

/-- Positive rescaling of the plane normal (the source's division by the
Euclidean norm) leaves every side flag unchanged. -/
theorem crossFlag_smul {mp nrm p : Vec3} {c : ℚ} (hc : 0 < c) :
    crossFlag mp (Vec3.smul c nrm) p = crossFlag mp nrm p := by
  have key : Vec3.dot (Vec3.sub p mp) (Vec3.smul c nrm)
      = c * Vec3.dot (Vec3.sub p mp) nrm := by
    simp only [Vec3.dot, Vec3.smul, Vec3.sub]
    ring
  simp only [crossFlag, key]
  exact decide_eq_decide.mpr (mul_pos_iff_of_pos_left hc)

/-- C7 (amended): the crossings the Density Outlier Filter detects at each
interior node are filtered only by the curve-boundary exclusion: the
detection equals the raw boundary-excluded crossing list — the same list
the Median/Distance Estimator computes before its center-of-mass filter —
for every positive normalisation scalar; neither the start/end-plane
consistency filter nor the center-of-mass filter is applied. -/
theorem outlier_cross_no_consistency_filter (data : List Vec3)
    (offsets : List ℕ) (mp nrm : Vec3) (c : ℚ) (hc : 0 < c) :
    outlierCross data offsets mp nrm c = crossIdx data offsets mp nrm := by
  have hmap : data.map (crossFlag mp (Vec3.smul c nrm))
      = data.map (crossFlag mp nrm) :=
    List.map_congr_left (fun p _ => crossFlag_smul hc)
  simp only [outlierCross, crossIdx, rawCross]
  rw [hmap]

unseal Rat.mul Rat.add Rat.sub Rat.inv Rat.ofScientific in
theorem outlier_cross_no_consistency_filter_witness :
    (0 : ℚ) < 1/5 ∧
    outlierCross [⟨1, 0, 0⟩, ⟨3, 0, 0⟩] [0] ⟨2, 0, 0⟩ ⟨-4, 0, 0⟩ (1/5)
      = crossIdx [⟨1, 0, 0⟩, ⟨3, 0, 0⟩] [0] ⟨2, 0, 0⟩ ⟨-4, 0, 0⟩ :=
  ⟨by decide,
   outlier_cross_no_consistency_filter [⟨1, 0, 0⟩, ⟨3, 0, 0⟩] [0]
     ⟨2, 0, 0⟩ ⟨-4, 0, 0⟩ (1/5) (by decide)⟩

unseal Rat.mul Rat.add Rat.sub Rat.inv Rat.ofScientific in
/-- C7 counterexample: a concrete two-point curve crossing the interior
plane of the skeleton `[(0,0,0), (2,0,0), (4,0,0)]` at the point `(5,0,0)`,
which lies beyond the end plane at node `(4,0,0)`: the claimed
start/end-plane consistency filter discards it (empty list), yet the code's
detection reports it — the claim that the filter is applied is false. -/
theorem outlier_cross_consistency_counterexample :
    outlierCross [⟨1, 0, 0⟩, ⟨5, 0, 0⟩] [0] ⟨2, 0, 0⟩ ⟨-4, 0, 0⟩ 1 = [1] ∧
    specConsistencyCross [⟨1, 0, 0⟩, ⟨5, 0, 0⟩] [0] ⟨0, 0, 0⟩ ⟨4, 0, 0⟩
      ⟨2, 0, 0⟩ ⟨-4, 0, 0⟩ = [] ∧
    outlierCross [⟨1, 0, 0⟩, ⟨5, 0, 0⟩] [0] ⟨2, 0, 0⟩ ⟨-4, 0, 0⟩ 1
      ≠ specConsistencyCross [⟨1, 0, 0⟩, ⟨5, 0, 0⟩] [0] ⟨0, 0, 0⟩ ⟨4, 0, 0⟩
        ⟨2, 0, 0⟩ ⟨-4, 0, 0⟩ := by
  decide

/-- C8 (amended): when neither the dominant-axis rule nor the smallest-axis
rule applies, the orientation tie-break swaps `mean_start` and `mean_end`
exactly when the componentwise-sign sum of the single difference
`mean_start - mean_end` over the three axes is positive — the vote reads
only the two resolved means, not every curve. -/
theorem orient_fallback_vote (ms me : Vec3) (h1 : ¬ orientCond1 ms me)
    (h2 : ¬ orientCond2 ms me) :
    orientResolve ms me = if 0 < codeVote ms me then (me, ms) else (ms, me) := by
  simp only [orientResolve]
  rw [if_neg h1, if_neg h2]

unseal Rat.mul Rat.add Rat.sub Rat.inv Rat.ofScientific in
theorem orient_fallback_vote_witness :
    ¬ orientCond1 ⟨3, -2, 2⟩ ⟨0, 0, 0⟩ ∧
    ¬ orientCond2 ⟨3, -2, 2⟩ ⟨0, 0, 0⟩ ∧
    orientResolve ⟨3, -2, 2⟩ ⟨0, 0, 0⟩
      = if 0 < codeVote ⟨3, -2, 2⟩ ⟨0, 0, 0⟩ then (⟨0, 0, 0⟩, ⟨3, -2, 2⟩)
        else (⟨3, -2, 2⟩, ⟨0, 0, 0⟩) :=
  ⟨by decide, by decide,
   orient_fallback_vote ⟨3, -2, 2⟩ ⟨0, 0, 0⟩ (by decide) (by decide)⟩

unseal Rat.mul Rat.add Rat.sub Rat.inv Rat.ofScientific in
/-- C8 counterexample: two curves with starts `(8,-3,1)`, `(-2,-1,3)` and
ends at the origin give mean start `(3,-2,2)` and mean end `(0,0,0)`;
neither of the first two rules applies, the claimed per-curve majority vote
is `0` (not positive, so the claim predicts no swap), yet the code swaps
the means — its vote is the componentwise sign of the mean difference. -/
theorem orient_fallback_vote_counterexample :
    vmean [⟨8, -3, 1⟩, ⟨-2, -1, 3⟩] = ⟨3, -2, 2⟩ ∧
    vmean [⟨0, 0, 0⟩, ⟨0, 0, 0⟩] = ⟨0, 0, 0⟩ ∧
    ¬ orientCond1 ⟨3, -2, 2⟩ ⟨0, 0, 0⟩ ∧
    ¬ orientCond2 ⟨3, -2, 2⟩ ⟨0, 0, 0⟩ ∧
    ¬ 0 < specCurveVote [⟨8, -3, 1⟩, ⟨-2, -1, 3⟩] [⟨0, 0, 0⟩, ⟨0, 0, 0⟩] ∧
    orientResolve ⟨3, -2, 2⟩ ⟨0, 0, 0⟩ ≠ (⟨3, -2, 2⟩, ⟨0, 0, 0⟩) := by
  decide

/-- C2: `remove_outlier_streamlines` (positional pass, the default
`remove_outlier_dir=False` configuration) removes at most a `keep_ratio`
fraction of the curves, for every density matrix (hence every input
tractogram whose execution completes), every threshold, every
`outlier_ratio` in `(0,1]` and every `keep_ratio` in `[0,1]`: when more
than `keep_ratio * curve_count` curves are flagged, only the
`int(curve_count * keep_ratio)` worst curves of the descending
outlier-node-count ranking are removed; the removal list never repeats a
curve. -/
theorem outlier_removal_keep_ratio_cap {nr nc : ℕ}
    (dens : Fin nr → Fin nc → ℚ) (t ratio keepRatio : ℚ)
    (_hor : 0 < ratio ∧ ratio ≤ 1) (hkr : 0 ≤ keepRatio ∧ keepRatio ≤ 1) :
    ((removedCurves dens t ratio keepRatio).length : ℚ) ≤ keepRatio * (nc : ℚ) ∧
    (removedCurves dens t ratio keepRatio).Nodup ∧
    (signSorted dens t).Sorted (fun a b => nSign dens t b ≤ nSign dens t a) := by
  have hsortperm := List.perm_insertionSort
    (fun a b : Fin nc => nSign dens t b ≤ nSign dens t a) (List.finRange nc)
  have hsortnd : (signSorted dens t).Nodup :=
    (hsortperm.nodup_iff).2 (List.nodup_finRange nc)
  have hsortlen : (signSorted dens t).length = nc := by
    rw [signSorted, hsortperm.length_eq, List.length_finRange]
  have hflagnd : (flaggedCurves dens t ratio).Nodup :=
    (List.nodup_finRange nc).filter _
  refine ⟨?_, ?_, ?_⟩
  · rw [removedCurves]
    by_cases hc : keepRatio * (nc : ℚ) < ((flaggedCurves dens t ratio).length : ℚ)
    · rw [if_pos hc]
      have hfl : 0 ≤ (nc : ℚ) * keepRatio :=
        mul_nonneg (by positivity) hkr.1
      have hfloor : ((Int.toNat ⌊(nc : ℚ) * keepRatio⌋ : ℤ) : ℚ) ≤ keepRatio * (nc : ℚ) := by
        rw [Int.toNat_of_nonneg (Int.floor_nonneg.2 hfl), mul_comm keepRatio]
        exact Int.floor_le _
      have hlen : ((signSorted dens t).take
          (Int.toNat ⌊(nc : ℚ) * keepRatio⌋)).length
          ≤ Int.toNat ⌊(nc : ℚ) * keepRatio⌋ := by
        rw [List.length_take]
        exact min_le_left _ _
      calc (((signSorted dens t).take (Int.toNat ⌊(nc : ℚ) * keepRatio⌋)).length : ℚ)
          ≤ ((Int.toNat ⌊(nc : ℚ) * keepRatio⌋ : ℤ) : ℚ) := by exact_mod_cast hlen
        _ ≤ keepRatio * (nc : ℚ) := hfloor
    · rw [if_neg hc]
      exact le_of_not_lt hc
  · rw [removedCurves]
    by_cases hc : keepRatio * (nc : ℚ) < ((flaggedCurves dens t ratio).length : ℚ)
    · rw [if_pos hc]
      exact hsortnd.sublist (List.take_sublist _ _)
    · rw [if_neg hc]
      exact hflagnd
  · haveI : IsTotal (Fin nc) (fun a b => nSign dens t b ≤ nSign dens t a) :=
      ⟨fun a b => le_total _ _⟩
    haveI : IsTrans (Fin nc) (fun a b => nSign dens t b ≤ nSign dens t a) :=
      ⟨fun _ _ _ h1 h2 => le_trans h2 h1⟩
    exact List.sorted_insertionSort _ _

unseal Rat.mul Rat.add Rat.sub Rat.inv Rat.ofScientific in
theorem outlier_removal_keep_ratio_cap_witness :
    ((0 : ℚ) < 1/2 ∧ (1/2 : ℚ) ≤ 1) ∧ ((0 : ℚ) ≤ 1/2 ∧ (1/2 : ℚ) ≤ 1) ∧
    (((removedCurves (fun i c => if i = 1 ∧ c = 0 then 1 else 0 :
          Fin 3 → Fin 2 → ℚ) 1 (1/2) (1/2)).length : ℚ)
      ≤ (1/2 : ℚ) * ((2 : ℕ) : ℚ) ∧
    (removedCurves (fun i c => if i = 1 ∧ c = 0 then 1 else 0 :
        Fin 3 → Fin 2 → ℚ) 1 (1/2) (1/2)).Nodup ∧
    (signSorted (fun i c => if i = 1 ∧ c = 0 then 1 else 0 :
        Fin 3 → Fin 2 → ℚ) 1).Sorted
      (fun a b => nSign (fun i c => if i = 1 ∧ c = 0 then 1 else 0 :
          Fin 3 → Fin 2 → ℚ) 1 b
        ≤ nSign (fun i c => if i = 1 ∧ c = 0 then 1 else 0 :
          Fin 3 → Fin 2 → ℚ) 1 a)) :=
  ⟨⟨by decide, by decide⟩, ⟨by decide, by decide⟩,
   outlier_removal_keep_ratio_cap
     (fun i c => if i = 1 ∧ c = 0 then 1 else 0 : Fin 3 → Fin 2 → ℚ) 1 (1/2) (1/2)
     ⟨by decide, by decide⟩ ⟨by decide, by decide⟩⟩

unseal Rat.mul Rat.add Rat.sub Rat.inv Rat.ofScientific in
/-- C4 (evaluating the code at the failing input): with the 3-node skeleton
`[(0,0,0),(2,0,0),(4,0,0)]` and one curve crossing the middle node's plane,
`get_dist_from_median_trajectory(compute_dist=True)` aborts (modelled
`none`): the per-crossing owner lookup receives the one-element array
`idx[j]`, takes the non-`int` branch, and `np.roll(isin, -1, axis=1)` on
the 1-D indicator raises `AxisError` — so no distance map of any shape is
returned; the same input with `compute_dist=False` does return, and its
distance map has `node_count = 3` rows (all zero), not `node_count - 2`. -/
theorem dist_map_compute_dist_aborts :
    getDist [⟨1, 0, 0⟩, ⟨3, 0, 0⟩] [0] ⟨0, 0, 0⟩
        [⟨0, 0, 0⟩, ⟨2, 0, 0⟩, ⟨4, 0, 0⟩] true = none ∧
    getDist [⟨1, 0, 0⟩, ⟨3, 0, 0⟩] [0] ⟨0, 0, 0⟩
        [⟨0, 0, 0⟩, ⟨2, 0, 0⟩, ⟨4, 0, 0⟩] false
      = some ([[0], [0], [0]], [⟨0, 0, 0⟩, ⟨3, 0, 0⟩, ⟨4, 0, 0⟩]) ∧
    ([[0], [0], [0]] : List (List ℚ)).length
      = ([⟨0, 0, 0⟩, ⟨2, 0, 0⟩, ⟨4, 0, 0⟩] : List Vec3).length := by
  refine ⟨by decide, by decide, by decide⟩

unseal Rat.mul Rat.add Rat.sub Rat.inv Rat.ofScientific in
/-- C9 (evaluating the code at the failing input): for the skeleton
`[(0,0,0),(1,0,0),(2,0,0)]`, the first section (`i = 1`) resolves
`point_array[i-2]` to Python index `-1`, i.e. the LAST node `(2,0,0)` —
not the claimed fallback `node[i-1] = node[0] = (0,0,0)`; the
`try/except IndexError` around it is dead for `i = 1` because `-1` is
valid negative indexing.  The last-section clamp `node[i+1] → node[i]`
does behave as claimed (`i = 2` gives `m_next = (2,0,0)`). -/
theorem section_refs_negative_index_bug :
    (sectionRefs [⟨0, 0, 0⟩, ⟨1, 0, 0⟩, ⟨2, 0, 0⟩] 1).1 = ⟨2, 0, 0⟩ ∧
    (sectionRefs [⟨0, 0, 0⟩, ⟨1, 0, 0⟩, ⟨2, 0, 0⟩] 1).1 ≠ ⟨0, 0, 0⟩ ∧
    (sectionRefs [⟨0, 0, 0⟩, ⟨1, 0, 0⟩, ⟨2, 0, 0⟩] 2).2.2.2 = ⟨2, 0, 0⟩ := by
  refine ⟨by decide, by decide, by decide⟩

/-- Every voxel of the flooded region has its image value within the
tolerance of the seed's value. -/
theorem flood_mem_tol {nx ny nz : ℕ} {img : Vox nx ny nz → ℚ}
    {seed : Vox nx ny nz} {tol : ℚ} (htol : 0 ≤ tol) :
    ∀ w ∈ flood img seed tol, |img w - img seed| ≤ tol := by
  have main : ∀ (n : ℕ) (s : Finset (Vox nx ny nz)),
      (∀ w ∈ s, |img w - img seed| ≤ tol) →
      ∀ w ∈ (floodStep (fun w => decide (|img w - img seed| ≤ tol)))^[n] s,
        |img w - img seed| ≤ tol := by
    intro n
    induction n with
    | zero =>
      intro s hs
      simpa using hs
    | succ k ih =>
      intro s hs
      rw [Function.iterate_succ_apply]
      apply ih
      intro w hw
      rcases Finset.mem_union.1 hw with h | h
      · exact hs w h
      · have hok := (Finset.mem_filter.1 h).2.1
        simpa using hok
  intro w hw
  refine main _ {seed} ?_ w hw
  intro w' hw'
  rw [Finset.mem_singleton.1 hw']
  simpa using htol

/-- In every section region that `sectionRoi` returns, a voxel scoring 2
lies inside the binary occupancy mask. -/
theorem sectionRoi_support {nx ny nz : ℕ} {trk : Vox nx ny nz → ℚ}
    {center : Vec3} {pa : List Vec3} {i : ℕ} {simplify : Bool}
    {roi : Vox nx ny nz → ℚ} (hbin : ∀ v, trk v = 0 ∨ trk v = 1)
    (h : sectionRoi trk center pa i simplify = some roi) :
    ∀ v, roi v = 2 → trk v = 1 := by
  have hbase : ∀ w, roiVal trk center pa i w = 2 → trk w = 1 := by
    intro w hw
    rcases hbin w with h0 | h1
    · rw [roiVal, roiSliceVal, h0, mul_zero, mul_zero, add_zero] at hw
      norm_num at hw
    · exact h1
  have hseed : ∀ w, roiVal trk center pa i w = 2 →
      roiVal trk center pa i w * roiSliceVal trk pa i w = 2 := by
    intro w hw
    have htw : trk w = 1 := hbase w hw
    have hw' := hw
    rw [roiVal, roiSliceVal, htw, mul_one, mul_one] at hw'
    have hs1 : roiSliceVal trk pa i w = 1 := by
      rw [roiSliceVal, htw, mul_one]
      by_cases hs : sliceOk pa i w
      · rw [if_pos hs]
      · exfalso
        rw [if_neg hs, zero_add] at hw'
        by_cases hcm : comOk center pa i w
        · rw [if_pos hcm] at hw'
          norm_num at hw'
        · rw [if_neg hcm] at hw'
          norm_num at hw'
    rw [hw, hs1, mul_one]
  intro v hv
  cases simplify with
  | false =>
    simp only [sectionRoi] at h
    cases Option.some.inj h
    exact hbase v hv
  | true =>
    simp only [sectionRoi] at h
    split at h
    · exact absurd h (by simp)
    · rename_i dv hpv
      split at h
      · rename_i hdv
        cases Option.some.inj h
        have hvin : v ∈ flood
            (fun w => roiVal trk center pa i w * roiSliceVal trk pa i w) dv 1 := by
          by_contra hni
          simp only [if_neg hni] at hv
          norm_num at hv
        have htol := flood_mem_tol (by norm_num : (0:ℚ) ≤ 1) v hvin
        rw [hseed dv hdv] at htol
        have himg : roiVal trk center pa i v * roiSliceVal trk pa i v ≠ 0 := by
          intro h0
          rw [h0] at htol
          norm_num at htol
        rcases hbin v with h0 | h1
        · exfalso
          apply himg
          rw [roiSliceVal, h0, mul_zero, mul_zero]
        · exact h1
      · rename_i hdv
        cases Option.some.inj h
        exact hbase v hv

/-- C6: for every skeleton and every binary occupancy volume,
`get_roi_sections_from_nodes` (when it returns, with or without the
`simplify_shape` flood-fill cleanup) produces a labeled volume whose
nonzero labels all lie in `{1, …, node_count-1}` and whose nonzero-labeled
voxels all lie inside the occupancy mask. -/
theorem roi_sections_labels_and_support {nx ny nz : ℕ}
    (trk : Vox nx ny nz → ℚ) (pa : List Vec3) (simplify : Bool)
    (hbin : ∀ v, trk v = 0 ∨ trk v = 1) :
    ∀ mask, roiSections trk pa simplify = some mask →
      ∀ v, mask v = 0 ∨
        (1 ≤ mask v ∧ mask v ≤ pa.length - 1 ∧ trk v = 1) := by
  intro mask hmask
  have key := foldl_preserve
    (P := fun st : Option (Vox nx ny nz → ℕ) =>
      ∀ m, st = some m →
        ∀ v, m v = 0 ∨ (1 ≤ m v ∧ m v ≤ pa.length - 1 ∧ trk v = 1))
    (l := List.range' 1 (pa.length - 1))
    (f := roiSectionsStep trk (roiCenter trk) pa simplify)
    (a := some (fun _ => 0)) ?_ ?_
  · exact key mask hmask
  · rintro st i hmem hP m hm
    have hi : 1 ≤ i ∧ i ≤ pa.length - 1 := by
      obtain ⟨k, hk, rfl⟩ := List.mem_range'.1 hmem
      omega
    match st with
    | none => simp [roiSectionsStep] at hm
    | some m0 =>
      simp only [roiSectionsStep] at hm
      cases hroi : sectionRoi trk (roiCenter trk) pa i simplify with
      | none =>
        rw [hroi] at hm
        exact absurd hm (by simp)
      | some roi =>
        rw [hroi] at hm
        cases Option.some.inj hm
        intro v
        by_cases hv : roi v = 2
        · right
          simp only [if_pos hv]
          exact ⟨hi.1, hi.2, sectionRoi_support hbin hroi v hv⟩
        · simp only [if_neg hv]
          exact hP m0 rfl v
  · rintro m hm v
    cases Option.some.inj hm
    left
    rfl

unseal Rat.mul Rat.add Rat.sub Rat.inv Rat.ofScientific in
theorem roi_sections_labels_and_support_witness :
    (∀ _v : Vox 2 2 2, (1 : ℚ) = 0 ∨ (1 : ℚ) = 1) ∧
    (∀ v : Vox 2 2 2,
      ((roiSections (fun _ : Vox 2 2 2 => (1 : ℚ))
          [⟨1/2, 1/2, 1/2⟩, ⟨3/2, 1/2, 1/2⟩] true).getD (fun _ => 0)) v = 0 ∨
      (1 ≤ ((roiSections (fun _ : Vox 2 2 2 => (1 : ℚ))
          [⟨1/2, 1/2, 1/2⟩, ⟨3/2, 1/2, 1/2⟩] true).getD (fun _ => 0)) v ∧
       ((roiSections (fun _ : Vox 2 2 2 => (1 : ℚ))
          [⟨1/2, 1/2, 1/2⟩, ⟨3/2, 1/2, 1/2⟩] true).getD (fun _ => 0)) v
         ≤ ([⟨1/2, 1/2, 1/2⟩, ⟨3/2, 1/2, 1/2⟩] : List Vec3).length - 1 ∧
       (1 : ℚ) = 1)) :=
  ⟨fun _ => Or.inr rfl,
   roi_sections_labels_and_support (fun _ : Vox 2 2 2 => (1 : ℚ))
     [⟨1/2, 1/2, 1/2⟩, ⟨3/2, 1/2, 1/2⟩] true (fun _ => Or.inr rfl)
     ((roiSections (fun _ : Vox 2 2 2 => (1 : ℚ))
        [⟨1/2, 1/2, 1/2⟩, ⟨3/2, 1/2, 1/2⟩] true).getD (fun _ => 0)) (by rfl)⟩

end Unravel
